import Mathlib

/-!
Verification of the colate row-transformation pipeline.

The program reads one sheet from each spreadsheet file of a directory,
forward-fills blank cells from the preceding row, prepends per-row template
columns, and concatenates all transformed rows into one output matrix.

The shallow embedding below follows the Go source: a sheet is a list of rows
(lists of strings), machine failures (index out of range, slice bounds out of
range) are modelled as the value none of an Option result, and the template
engine is modelled on the documented behavior of Go text/template as the
source uses it (execution writes into a bytes.Buffer; an execution error
stops the walk, leaving the partial output already written in the buffer).
-/

namespace Colate

/-- The ColumnData struct of the source: the per-row input handed to every
column template (the row's cells, the source file's base name, and the row's
zero-based index within the post-offset sheet). -/
structure ColumnData where
  Cells : List String
  FileName : String
  RowNum : Nat

/-- One parsed node of a column template body: literal text, or a reference
to one field of ColumnData. -/
inductive TmplNode where
  | text (s : String)
  | field (n : String)

/-- A compiled column template, as its parsed node list. -/
abbrev Tmpl := List TmplNode

/-- Field resolution of Go text/template on a ColumnData value: Cells prints
in Go slice notation, RowNum in decimal, FileName verbatim; any other field
name is an execution error (none), as the struct has no such field. -/
def fieldValue (cd : ColumnData) (n : String) : Option String :=
  if n = "Cells" then some ("[" ++ String.intercalate " " cd.Cells ++ "]")
  else if n = "FileName" then some cd.FileName
  else if n = "RowNum" then some (toString cd.RowNum)
  else none

/-- Template execution as the source performs it (source.Execute writing into
a fresh bytes.Buffer): nodes are written to the buffer in order, and a failing
field reference stops execution with an error, keeping the output already
written. Returns the final buffer contents and whether an error occurred. -/
def tmplExecute (cd : ColumnData) : List TmplNode → String × Bool
  | [] => ("", false)
  | TmplNode.text s :: rest =>
      let r := tmplExecute cd rest
      (s ++ r.1, r.2)
  | TmplNode.field n :: rest =>
      match fieldValue cd n with
      | none => ("", true)
      | some v =>
          let r := tmplExecute cd rest
          (v ++ r.1, r.2)

/-- The inner loop of prependColumns over the template list (si is the index
of the first template of the remaining list): evaluates each template against
the row's ColumnData, collecting the produced cell values in order and the
indices of the templates whose execution returned an error, for each of which
the source logs a warning and keeps the buffer contents as the cell value. -/
def execRowAux (cd : ColumnData) (si : Nat) : List Tmpl → List String × List Nat
  | [] => ([], [])
  | t :: rest =>
      let r := tmplExecute cd t
      let k := execRowAux cd (si + 1) rest
      (r.1 :: k.1, if r.2 then si :: k.2 else k.2)

/-- The row loop of prependColumns (ri is the index of the first row of the
remaining list): for each row, builds the ColumnData (Cells set to the row,
RowNum to ri), evaluates every template, and replaces the row by the produced
values followed by the original cells. Returns the transformed rows together
with the (row index, template index) pairs for which a warning was logged. -/
def prependColumnsAux (fb : String) (sources : List Tmpl) (ri : Nat) :
    List (List String) → List (List String) × List (Nat × Nat)
  | [] => ([], [])
  | row :: rest =>
      let e := execRowAux ⟨row, fb, ri⟩ 0 sources
      let k := prependColumnsAux fb sources (ri + 1) rest
      ((e.1 ++ row) :: k.1, e.2.map (fun si => (ri, si)) ++ k.2)

/-- prependColumns of the source: prepends one cell per template, in template
order, to every row, evaluating each template against that row's ColumnData
with the file's base name fb. -/
def prependColumns (rows : List (List String)) (fb : String)
    (sources : List Tmpl) : List (List String) × List (Nat × Nat) :=
  prependColumnsAux fb sources 0 rows

/-- One row of the fill-down loop of getRows, for a row of index ri not equal
to 0: cells are scanned left to right (ci is the index of the first remaining
cell); an empty cell takes the value of the previous, already-filled row at
the same column index. When that column does not exist in the previous row,
the source expression rows[ri-1][ci] is an index out of range and panics at
run time, modelled as none. -/
def fillRowAux (prev : List String) (ci : Nat) : List String → Option (List String)
  | [] => some []
  | c :: rest =>
      match (if c = "" then prev.get? ci else some c) with
      | none => none
      | some v =>
          match fillRowAux prev (ci + 1) rest with
          | none => none
          | some vs => some (v :: vs)

/-- The fill-down loop of getRows over the rows after the first, threading the
row counter of the source: after each processed row the counter is decremented
and, when it reaches zero, the loop breaks, leaving all remaining rows
untouched but still present in the returned slice. prev is the already-filled
previous row. -/
def fillCapAux (prev : List String) (count : Int) :
    List (List String) → Option (List (List String))
  | [] => some []
  | row :: rest =>
      match fillRowAux prev 0 row with
      | none => none
      | some row' =>
          if count - 1 = 0 then some (row' :: rest)
          else
            match fillCapAux row' (count - 1) rest with
            | none => none
            | some rest' => some (row' :: rest')

/-- getRows of the source, modelled on the row matrix that the excelize sheet
holds (opening the file and reading the sheet are the external reader; its
open error is not in scope here). The source first slices rows[start:], which
panics when start exceeds the sheet's row count (modelled as none); it then
runs the fill-down loop with the row counter (count = 0 means no limit, since
the decremented counter then never reaches zero). The first row is never
filled, but it is counted against the counter like every other row. -/
def getRows (sheet : List (List String)) (start : Nat) (count : Int) :
    Option (List (List String)) :=
  if sheet.length < start then none
  else
    match sheet.drop start with
    | [] => some []
    | first :: rest =>
        if count - 1 = 0 then some (first :: rest)
        else
          match fillCapAux first (count - 1) rest with
          | none => none
          | some rest' => some (first :: rest')

/-- The file loop of main, with the output matrix accumulated so far: for each
file (given as its base name and the sheet rows its reader returns), getRows
is invoked, the template columns are prepended, and the resulting rows are
appended to the output matrix. A reader failure is fatal for the whole run
(none propagates). -/
def collateAux (start : Nat) (count : Int) (sources : List Tmpl)
    (acc : List (List String)) :
    List (String × List (List String)) → Option (List (List String))
  | [] => some acc
  | f :: rest =>
      match getRows f.2 start count with
      | none => none
      | some rows =>
          collateAux start count sources
            (acc ++ (prependColumns rows f.1 sources).1) rest

/-- The collation pipeline of main over an ordered list of input files, each
given as (base name, sheet rows): builds the output matrix in file order. -/
def collate (files : List (String × List (List String))) (start : Nat)
    (count : Int) (sources : List Tmpl) : Option (List (List String)) :=
  collateAux start count sources [] files

/-- When the fill of one row succeeds, the output row has the same length and
each output cell is the input cell when that one is non-empty, and the
previous row's cell at the same column when the input cell is empty. -/
theorem fillRowAux_some {prev : List String} :
    ∀ {row : List String} {ci : Nat} {out : List String},
    fillRowAux prev ci row = some out →
    out.length = row.length ∧
    ∀ k, out.get? k =
      (row.get? k).bind (fun c => if c = "" then prev.get? (ci + k) else some c) := by
  intro row
  induction row with
  | nil =>
    intro ci out h
    simp only [fillRowAux, Option.some.injEq] at h
    subst h
    exact ⟨rfl, fun k => by simp⟩
  | cons c rest ih =>
    intro ci out h
    simp only [fillRowAux] at h
    split at h
    next => exact absurd h (by simp)
    next v hv =>
      split at h
      next => exact absurd h (by simp)
      next vs hr =>
        injection h with h
        subst h
        obtain ⟨hl, hg⟩ := ih hr
        refine ⟨by simp [hl], fun k => ?_⟩
        cases k with
        | zero =>
          simpa [Nat.add_zero] using hv.symm
        | succ k =>
          have hk : ci + 1 + k = ci + (k + 1) := by omega
          simpa [hk] using hg k

/-- Frame property of one row's fill: lengths are preserved and every cell is
either unchanged or was the empty string. -/
theorem fillRowAux_frame {prev row out : List String} {ci : Nat}
    (h : fillRowAux prev ci row = some out) :
    out.length = row.length ∧
    ∀ k, out.get? k = row.get? k ∨ row.get? k = some "" := by
  obtain ⟨hl, hg⟩ := fillRowAux_some h
  refine ⟨hl, fun k => ?_⟩
  rw [hg k]
  cases hr : row.get? k with
  | none => simp
  | some c =>
    by_cases hc : c = ""
    · subst hc
      exact Or.inr rfl
    · exact Or.inl (by simp [hc])

/-- A row without empty cells is left unchanged by the fill (and the fill
cannot fault on it). -/
theorem fillRowAux_id {prev : List String} :
    ∀ {row : List String} {ci : Nat}, "" ∉ row → fillRowAux prev ci row = some row := by
  intro row
  induction row with
  | nil => intro ci _; rfl
  | cons c rest ih =>
    intro ci h
    have hc : ¬c = "" := fun e => h (by rw [e]; exact List.mem_cons_self _ _)
    have hrest : "" ∉ rest := fun m => h (List.mem_cons_of_mem _ m)
    simp only [fillRowAux, if_neg hc, ih hrest]

/-- Frame property of the capped fill-down loop: whatever the counter does,
the loop preserves the number of rows and the length of every row, and every
cell is either unchanged or was the empty string. -/
theorem fillCapAux_frame :
    ∀ {rows : List (List String)} {prev : List String} {count : Int}
      {out : List (List String)},
    fillCapAux prev count rows = some out →
    out.length = rows.length ∧
    ∀ ri irow orow, rows.get? ri = some irow → out.get? ri = some orow →
      orow.length = irow.length ∧
      ∀ ci, orow.get? ci = irow.get? ci ∨ irow.get? ci = some "" := by
  intro rows
  induction rows with
  | nil =>
    intro prev count out h
    simp only [fillCapAux, Option.some.injEq] at h
    subst h
    exact ⟨rfl, fun ri irow orow h1 _ => by simp at h1⟩
  | cons row rest ih =>
    intro prev count out h
    simp only [fillCapAux] at h
    split at h
    next => exact absurd h (by simp)
    next row' hr =>
      split at h
      · injection h with h
        subst h
        refine ⟨by simp, fun ri irow orow h1 h2 => ?_⟩
        cases ri with
        | zero =>
          simp only [List.get?_cons_zero, Option.some.injEq] at h1 h2
          subst h1; subst h2
          exact fillRowAux_frame hr
        | succ k =>
          simp only [List.get?_cons_succ] at h1 h2
          rw [h1] at h2
          injection h2 with h2
          subst h2
          exact ⟨rfl, fun ci => Or.inl rfl⟩
      · split at h
        next => exact absurd h (by simp)
        next rest' hrest =>
          injection h with h
          subst h
          obtain ⟨hl, hfr⟩ := ih hrest
          refine ⟨by simp [hl], fun ri irow orow h1 h2 => ?_⟩
          cases ri with
          | zero =>
            simp only [List.get?_cons_zero, Option.some.injEq] at h1 h2
            subst h1; subst h2
            exact fillRowAux_frame hr
          | succ k =>
            simp only [List.get?_cons_succ] at h1 h2
            exact hfr k irow orow h1 h2

/-- Chaining property of the fill-down loop when the counter never reaches
zero (a negative counter, as produced by the no-limit setting count = 0 after
the first decrement): the first output row is the fill of the first input row
against prev, and every later output row is the fill of the corresponding
input row against the previous output row. -/
theorem fillCapAux_chain :
    ∀ {rows : List (List String)} {prev : List String} {count : Int}
      {out : List (List String)},
    count < 0 → fillCapAux prev count rows = some out →
    out.length = rows.length ∧
    (∀ orow, out.get? 0 = some orow →
      ∃ irow, rows.get? 0 = some irow ∧ fillRowAux prev 0 irow = some orow) ∧
    (∀ ri prow orow irow, out.get? ri = some prow → out.get? (ri + 1) = some orow →
      rows.get? (ri + 1) = some irow → fillRowAux prow 0 irow = some orow) := by
  intro rows
  induction rows with
  | nil =>
    intro prev count out hneg h
    simp only [fillCapAux, Option.some.injEq] at h
    subst h
    refine ⟨rfl, fun orow h1 => by simp at h1, fun ri prow orow irow h1 h2 h3 => ?_⟩
    simp at h1
  | cons row rest ih =>
    intro prev count out hneg h
    simp only [fillCapAux] at h
    split at h
    next => exact absurd h (by simp)
    next row' hr =>
      rw [if_neg (by omega : ¬count - 1 = 0)] at h
      split at h
      next => exact absurd h (by simp)
      next rest' hrest =>
        injection h with h
        subst h
        obtain ⟨ihl, ihfirst, ihchain⟩ := ih (by omega : count - 1 < 0) hrest
        refine ⟨by simp [ihl], fun orow h1 => ?_, fun ri prow orow irow h1 h2 h3 => ?_⟩
        · simp only [List.get?_cons_zero, Option.some.injEq] at h1
          subst h1
          exact ⟨row, rfl, hr⟩
        · cases ri with
          | zero =>
            simp only [List.get?_cons_zero, List.get?_cons_succ, Option.some.injEq] at h1 h2 h3
            subst h1
            obtain ⟨irow', hi1, hi2⟩ := ihfirst orow h2
            rw [h3] at hi1
            injection hi1 with hi1
            subst hi1
            exact hi2
          | succ k =>
            simp only [List.get?_cons_succ] at h1 h2 h3
            exact ihchain k prow orow irow h1 h2 h3

/-- A sheet without empty cells is returned unchanged by the fill-down loop,
for every counter value. -/
theorem fillCapAux_id :
    ∀ {rows : List (List String)} {prev : List String} {count : Int},
    (∀ row ∈ rows, "" ∉ row) → fillCapAux prev count rows = some rows := by
  intro rows
  induction rows with
  | nil => intro prev count _; rfl
  | cons row rest ih =>
    intro prev count h
    have h0 : "" ∉ row := h row (List.mem_cons_self _ _)
    have h1 : ∀ r ∈ rest, "" ∉ r := fun r m => h r (List.mem_cons_of_mem _ m)
    simp only [fillCapAux, fillRowAux_id h0]
    by_cases hc : count - 1 = 0
    · rw [if_pos hc]
    · rw [if_neg hc, ih h1]

/-- Closed form of the template loop over one row: the produced cells are the
buffer contents of each template in order, and the recorded error indices are
exactly the indices of the templates whose execution errored. -/
theorem execRowAux_eq (cd : ColumnData) :
    ∀ (ts : List Tmpl) (si : Nat),
    execRowAux cd si ts =
      (ts.map (fun t => (tmplExecute cd t).1),
       (List.enumFrom si ts).filterMap
         (fun q => if (tmplExecute cd q.2).2 then some q.1 else none)) := by
  intro ts
  induction ts with
  | nil => intro si; rfl
  | cons t rest ih =>
    intro si
    simp only [execRowAux, ih (si + 1), List.map_cons, List.enumFrom,
      List.filterMap_cons]
    cases he : (tmplExecute cd t).2 <;> simp [he]

/-- Closed form of the row loop of prependColumns: each row of index ri is
replaced by the template outputs for that row followed by the original cells,
and one warning (ri, si) is recorded for each template si whose execution
errored on row ri. -/
theorem prependColumnsAux_eq (fb : String) (sources : List Tmpl) :
    ∀ (rows : List (List String)) (ri : Nat),
    prependColumnsAux fb sources ri rows =
      ((List.enumFrom ri rows).map
        (fun p => (sources.map fun t => (tmplExecute ⟨p.2, fb, p.1⟩ t).1) ++ p.2),
       ((List.enumFrom ri rows).map
        (fun p => sources.enum.filterMap
          (fun q =>
            if (tmplExecute ⟨p.2, fb, p.1⟩ q.2).2 then some (p.1, q.1) else none))).flatten) := by
  intro rows
  induction rows with
  | nil => intro ri; rfl
  | cons row rest ih =>
    intro ri
    simp only [prependColumnsAux, execRowAux_eq, ih (ri + 1), List.enumFrom,
      List.map_cons, List.flatten_cons, Prod.mk.injEq]
    refine ⟨trivial, ?_⟩
    rw [List.map_filterMap]
    have he : sources.enum = List.enumFrom 0 sources := rfl
    rw [he]
    have hfun : (fun x : Nat × Tmpl =>
        Option.map (fun si => (ri, si))
          (if (tmplExecute (ColumnData.mk row fb ri) x.2).2 = true then some x.1 else none)) =
        (fun q : Nat × Tmpl =>
          if (tmplExecute (ColumnData.mk row fb ri) q.2).2 = true then some (ri, q.1)
          else none) := by
      funext q
      by_cases hq : (tmplExecute (ColumnData.mk row fb ri) q.2).2 = true
      · simp [hq]
      · simp [hq]
    rw [hfun]

/-- The accumulator of the file loop only prepends to the final matrix. -/
theorem collateAux_acc (start : Nat) (count : Int) (sources : List Tmpl) :
    ∀ (files : List (String × List (List String))) (acc : List (List String)),
      collateAux start count sources acc files =
        (collateAux start count sources [] files).map (acc ++ ·) := by
  intro files
  induction files with
  | nil => intro acc; simp [collateAux]
  | cons f rest ih =>
    intro acc
    simp only [collateAux]
    cases hg : getRows f.2 start count with
    | none => rfl
    | some rows =>
      show collateAux start count sources (acc ++ (prependColumns rows f.1 sources).1) rest =
        (collateAux start count sources ([] ++ (prependColumns rows f.1 sources).1) rest).map
          (acc ++ ·)
      rw [ih (acc ++ (prependColumns rows f.1 sources).1),
        ih ([] ++ (prependColumns rows f.1 sources).1)]
      cases collateAux start count sources [] rest <;>
        simp [List.append_assoc]

/-- C1: the row counter of getRows does not truncate the returned rows. With
a limit of 2 on a sheet of 5 rows (post-offset), getRows returns all 5 rows:
the counter only stops the fill-down loop early, while the returned slice
keeps every row from the offset on, contradicting the claimed cap and the
flag doc of the source (number of rows to take). -/
theorem getRows_count_not_truncating :
    getRows [["r1"], ["r2"], ["r3"], ["r4"], ["r5"]] 0 2 =
        some [["r1"], ["r2"], ["r3"], ["r4"], ["r5"]] ∧
      ([["r1"], ["r2"], ["r3"], ["r4"], ["r5"]] : List (List String)).length = 5 :=
  ⟨by decide, rfl⟩

/-- C2: on a sheet whose second row has an empty cell at column index 1 while
the first row has only one column, the fill-down lookup rows[0][1] is out of
range: the source panics (modelled as none) instead of leaving the cell
empty. -/
theorem getRows_ragged_fault :
    getRows [["a"], ["b", ""]] 0 0 = none := by decide

/-- C3: a start offset strictly beyond the sheet's row count makes the slice
rows[start:] panic in the source (modelled as none) instead of returning an
empty sequence; an offset equal to the row count does return the empty
sequence without failure. -/
theorem getRows_offset_beyond_fault :
    getRows [["a"]] 2 0 = none ∧ getRows [["a"]] 1 0 = some [] :=
  ⟨by decide, by decide⟩

/-- C4 counterexample: a failing template does not always yield the empty
string for its cell. The compiled template with body abc followed by a
reference to the nonexistent field Missing errors during execution (the
warning (row 0, template 0) is recorded), yet its cell receives the partial
output abc already written to the buffer, which is not the empty string. -/
theorem prependColumns_partial_output_cex :
    prependColumns [["v1"]] "f"
        [[TmplNode.text "abc", TmplNode.field "Missing"]] =
      ([["abc", "v1"]], [(0, 0)]) ∧ ("abc" : String) ≠ "" :=
  ⟨by decide, by decide⟩

/-- C4 (amended): when evaluation of a template fails on a row, the cell
receives the output written to the buffer before the failure (the empty
string whenever the template fails before emitting anything, as with a bare
nonexistent-field reference), a warning identifying the row and the template
is recorded, and processing continues: every remaining template of the row,
every remaining row, and (since prependColumns is total) every remaining file
is still processed, so the failure is non-fatal. -/
theorem prependColumns_recovery :
    ∀ (rows : List (List String)) (fb : String) (sources : List Tmpl),
      (prependColumns rows fb sources).1.length = rows.length ∧
      (prependColumns rows fb sources).1 =
        rows.enum.map
          (fun p => (sources.map fun t => (tmplExecute ⟨p.2, fb, p.1⟩ t).1) ++ p.2) ∧
      (prependColumns rows fb sources).2 =
        (rows.enum.map
          (fun p => sources.enum.filterMap
            (fun q =>
              if (tmplExecute ⟨p.2, fb, p.1⟩ q.2).2 then some (p.1, q.1)
              else none))).flatten := by
  intro rows fb sources
  have h := prependColumnsAux_eq fb sources rows 0
  have h1 : (prependColumns rows fb sources).1 =
      rows.enum.map
        (fun p => (sources.map fun t => (tmplExecute ⟨p.2, fb, p.1⟩ t).1) ++ p.2) := by
    show (prependColumnsAux fb sources 0 rows).1 = _
    rw [h]
    rfl
  refine ⟨?_, h1, ?_⟩
  · rw [h1]
    simp [List.enum_length]
  · show (prependColumnsAux fb sources 0 rows).2 = _
    rw [h]
    rfl

/-- C5: for every row, prependColumns produces exactly one value per
template, evaluated against that row's ColumnData (cells of the row, file
base name, zero-based row index), and prepends the values to the row's
original cells in template-list order; in particular two templates producing
f.xlsx and 2 for the row (v1, v2) yield the row (f.xlsx, 2, v1, v2). -/
theorem prependColumns_prepend_order :
    (∀ (rows : List (List String)) (fb : String) (sources : List Tmpl),
      (prependColumns rows fb sources).1 =
        rows.enum.map
          (fun p => (sources.map fun t => (tmplExecute ⟨p.2, fb, p.1⟩ t).1) ++ p.2)) ∧
    (prependColumns [["v1", "v2"]] "f.xlsx"
        [[TmplNode.field "FileName"], [TmplNode.text "2"]]).1 =
      [["f.xlsx", "2", "v1", "v2"]] := by
  constructor
  · intro rows fb sources
    show (prependColumnsAux fb sources 0 rows).1 = _
    rw [prependColumnsAux_eq]
    rfl
  · decide

/-- C6: whenever getRows succeeds with no offset and no row limit, its result
is the fill-down of the sheet: the row count is preserved, the first row is
unchanged, and every later row agrees with the input row except that each
empty cell holds the value of the already-filled preceding output row at the
same column index. -/
theorem getRows_fill_down :
    ∀ (sheet out : List (List String)), getRows sheet 0 0 = some out →
      out.length = sheet.length ∧
      out.get? 0 = sheet.get? 0 ∧
      ∀ ri prow orow irow, out.get? ri = some prow →
        out.get? (ri + 1) = some orow → sheet.get? (ri + 1) = some irow →
        orow.length = irow.length ∧
        ∀ ci, orow.get? ci =
          (irow.get? ci).bind (fun c => if c = "" then prow.get? ci else some c) := by
  intro sheet out h
  simp only [getRows, List.drop_zero, Nat.not_lt_zero, if_false] at h
  cases sheet with
  | nil =>
    replace h : some ([] : List (List String)) = some out := h
    injection h with h
    subst h
    exact ⟨rfl, rfl, fun ri prow orow irow h1 _ _ => by simp at h1⟩
  | cons first rest =>
    replace h : (if (0 : Int) - 1 = 0 then some (first :: rest)
        else match fillCapAux first ((0 : Int) - 1) rest with
          | none => none
          | some rest' => some (first :: rest')) = some out := h
    rw [if_neg (by decide : ¬(0 : Int) - 1 = 0)] at h
    cases hrest : fillCapAux first ((0 : Int) - 1) rest with
    | none => rw [hrest] at h; exact absurd h (by simp)
    | some rest' =>
      rw [hrest] at h
      injection h with h
      subst h
      obtain ⟨hl, hfirst, hchain⟩ :=
        fillCapAux_chain (by decide : (0 : Int) - 1 < 0) hrest
      refine ⟨by simp [hl], rfl, fun ri prow orow irow h1 h2 h3 => ?_⟩
      cases ri with
      | zero =>
        simp only [List.get?_cons_zero, List.get?_cons_succ,
          Option.some.injEq] at h1 h2 h3
        subst h1
        obtain ⟨irow', hi1, hi2⟩ := hfirst orow h2
        rw [h3] at hi1
        injection hi1 with hi1
        subst hi1
        obtain ⟨hl2, hg⟩ := fillRowAux_some hi2
        exact ⟨hl2, fun ci => by simpa [Nat.zero_add] using hg ci⟩
      | succ k =>
        simp only [List.get?_cons_succ] at h1 h2 h3
        obtain ⟨hl2, hg⟩ := fillRowAux_some (hchain k prow orow irow h1 h2 h3)
        exact ⟨hl2, fun ci => by simpa [Nat.zero_add] using hg ci⟩

/-- C6 witness: the spec's example sheet evaluates to its fill-down and the
characterization applies to it. -/
theorem getRows_fill_down_witness :
    getRows [["a", "b"], ["", "c"], ["", "d"]] 0 0 =
        some [["a", "b"], ["a", "c"], ["a", "d"]] ∧
      ([["a", "b"], ["a", "c"], ["a", "d"]] : List (List String)).length =
        ([["a", "b"], ["", "c"], ["", "d"]] : List (List String)).length :=
  ⟨by decide, (getRows_fill_down _ _ (by decide)).1⟩

/-- C7: whenever getRows succeeds, the first returned row is exactly the
first post-offset input row: the first row is never filled, so an empty cell
in row 0 stays empty and is never retroactively changed. -/
theorem getRows_first_row_unchanged :
    ∀ (sheet : List (List String)) (start : Nat) (count : Int)
      (out : List (List String)),
      getRows sheet start count = some out →
      out.get? 0 = (sheet.drop start).get? 0 := by
  intro sheet start count out h
  simp only [getRows] at h
  split at h
  next => exact absurd h (by simp)
  next =>
    split at h
    next heq =>
      injection h with h
      subst h
      rw [heq]
    next first rest heq =>
      split at h
      · injection h with h
        subst h
        rw [heq]
      · split at h
        next => exact absurd h (by simp)
        next rest' hrest =>
          injection h with h
          subst h
          rw [heq]
          rfl

/-- C7 witness: on the spec's one-row example the empty first-row cell is
left untouched. -/
theorem getRows_first_row_unchanged_witness :
    getRows [["", "x"]] 0 0 = some [["", "x"]] ∧
      ([["", "x"]] : List (List String)).get? 0 =
        (([["", "x"]] : List (List String)).drop 0).get? 0 :=
  ⟨by decide, getRows_first_row_unchanged _ 0 0 _ (by decide)⟩

/-- C8: a sheet with no empty cells is returned unchanged by getRows with no
offset, for every row-limit value: the fill-down is the identity on fully
populated sheets. -/
theorem getRows_identity_no_empty :
    ∀ (sheet : List (List String)) (count : Int),
      (∀ row ∈ sheet, "" ∉ row) → getRows sheet 0 count = some sheet := by
  intro sheet count h
  simp only [getRows, List.drop_zero, Nat.not_lt_zero, if_false]
  cases sheet with
  | nil => rfl
  | cons first rest =>
    show (if count - 1 = 0 then some (first :: rest)
        else match fillCapAux first (count - 1) rest with
          | none => none
          | some rest' => some (first :: rest')) = some (first :: rest)
    have h1 : ∀ r ∈ rest, "" ∉ r := fun r m => h r (List.mem_cons_of_mem _ m)
    by_cases hc : count - 1 = 0
    · rw [if_pos hc]
    · rw [if_neg hc, fillCapAux_id h1]

/-- C8 witness: a concrete fully populated sheet is returned unchanged. -/
theorem getRows_identity_no_empty_witness :
    getRows [["a", "b"], ["c"]] 0 0 = some [["a", "b"], ["c"]] :=
  getRows_identity_no_empty _ 0 (by decide)

/-- C10: whenever getRows succeeds, the fill-down pass changes neither the
number of rows nor the length of any row, and every output cell either equals
the corresponding post-offset input cell or that input cell was the empty
string. -/
theorem getRows_frame :
    ∀ (sheet : List (List String)) (start : Nat) (count : Int)
      (out : List (List String)),
      getRows sheet start count = some out →
      out.length = (sheet.drop start).length ∧
      ∀ ri irow orow, (sheet.drop start).get? ri = some irow →
        out.get? ri = some orow →
        orow.length = irow.length ∧
        ∀ ci, orow.get? ci = irow.get? ci ∨ irow.get? ci = some "" := by
  intro sheet start count out h
  simp only [getRows] at h
  split at h
  next => exact absurd h (by simp)
  next =>
    split at h
    next heq =>
      injection h with h
      subst h
      rw [heq]
      exact ⟨rfl, fun ri irow orow h1 _ => by simp at h1⟩
    next first rest heq =>
      rw [heq]
      split at h
      · injection h with h
        subst h
        refine ⟨rfl, fun ri irow orow h1 h2 => ?_⟩
        rw [h1] at h2
        injection h2 with h2
        subst h2
        exact ⟨rfl, fun ci => Or.inl rfl⟩
      · split at h
        next => exact absurd h (by simp)
        next rest' hrest =>
          injection h with h
          subst h
          obtain ⟨hl, hfr⟩ := fillCapAux_frame hrest
          refine ⟨by simp [hl], fun ri irow orow h1 h2 => ?_⟩
          cases ri with
          | zero =>
            simp only [List.get?_cons_zero, Option.some.injEq] at h1 h2
            subst h1; subst h2
            exact ⟨rfl, fun ci => Or.inl rfl⟩
          | succ k =>
            simp only [List.get?_cons_succ] at h1 h2
            exact hfr k irow orow h1 h2

/-- C10 witness: a concrete successful fill keeps the row count. -/
theorem getRows_frame_witness :
    getRows [["a", "b"], ["", "c"]] 0 0 = some [["a", "b"], ["a", "c"]] ∧
      ([["a", "b"], ["a", "c"]] : List (List String)).length =
        (([["a", "b"], ["", "c"]] : List (List String)).drop 0).length :=
  ⟨by decide, (getRows_frame _ 0 0 _ (by decide)).1⟩

/-- Collation of a single file: its reader result transformed by
prependColumns. -/
theorem collate_singleton (f : String × List (List String)) (start : Nat)
    (count : Int) (sources : List Tmpl) :
    collate [f] start count sources =
      (getRows f.2 start count).map
        (fun rs => (prependColumns rs f.1 sources).1) := by
  show collateAux start count sources [] [f] = _
  simp only [collateAux]
  cases hg : getRows f.2 start count with
  | none => rfl
  | some rows => simp [collateAux]

/-- Collation is a homomorphism for file-list concatenation. -/
theorem collate_append (fs1 fs2 : List (String × List (List String)))
    (start : Nat) (count : Int) (sources : List Tmpl) :
    collate (fs1 ++ fs2) start count sources =
      (collate fs1 start count sources).bind
        (fun a => (collate fs2 start count sources).map (fun b => a ++ b)) := by
  induction fs1 with
  | nil =>
    show collate fs2 start count sources = (some []).bind _
    cases hc : collate fs2 start count sources <;> simp [hc]
  | cons f fs1 ih =>
    show collateAux start count sources [] (f :: (fs1 ++ fs2)) =
      (collateAux start count sources [] (f :: fs1)).bind
        (fun a => (collate fs2 start count sources).map (fun b => a ++ b))
    simp only [collateAux]
    cases hg : getRows f.2 start count with
    | none => rfl
    | some rows =>
      show collateAux start count sources
          ([] ++ (prependColumns rows f.1 sources).1) (fs1 ++ fs2) =
        (collateAux start count sources
          ([] ++ (prependColumns rows f.1 sources).1) fs1).bind
          (fun a => (collate fs2 start count sources).map (fun b => a ++ b))
      rw [collateAux_acc start count sources (fs1 ++ fs2)
            ([] ++ (prependColumns rows f.1 sources).1),
          collateAux_acc start count sources fs1
            ([] ++ (prependColumns rows f.1 sources).1)]
      have hih : collateAux start count sources [] (fs1 ++ fs2) =
          (collateAux start count sources [] fs1).bind
            (fun a => (collate fs2 start count sources).map (fun b => a ++ b)) := ih
      rw [hih]
      cases collateAux start count sources [] fs1 with
      | none => rfl
      | some a =>
        cases collate fs2 start count sources with
        | none => rfl
        | some b => simp [List.append_assoc]

/-- C9: the output matrix is the concatenation, in file-processing order, of
each file's transformed rows (its reader result with the template columns
prepended), with per-file row order preserved: collation of one file is its
own transformed sheet, collation of a concatenated file list is the
concatenation of the two collations, and on the spec's example the first two
output rows come from A.xlsx and the third from B.xlsx. -/
theorem collate_file_order :
    (∀ (f : String × List (List String)) (start : Nat) (count : Int)
        (sources : List Tmpl),
      collate [f] start count sources =
        (getRows f.2 start count).map
          (fun rs => (prependColumns rs f.1 sources).1)) ∧
    (∀ (fs1 fs2 : List (String × List (List String))) (start : Nat)
        (count : Int) (sources : List Tmpl),
      collate (fs1 ++ fs2) start count sources =
        (collate fs1 start count sources).bind
          (fun a => (collate fs2 start count sources).map (fun b => a ++ b))) ∧
    collate [("A.xlsx", [["a1"], ["a2"]]), ("B.xlsx", [["b1"]])] 0 0
        [[TmplNode.field "FileName"]] =
      some [["A.xlsx", "a1"], ["A.xlsx", "a2"], ["B.xlsx", "b1"]] :=
  ⟨collate_singleton, collate_append, by decide⟩

end Colate
